import Mathlib

/-!
Shallow embedding of `rivuletpy/soma.py` (morphological active contours for
soma detection): the SI/IS multi-structuring-element operators, the curvature
operator cycle, the MorphACWE (Chan-Vese) and MorphGAC evolvers, the
automatic-convergence loop `autoconvg`, and the `soma_detect` orchestrator.

Numeric model: numpy float64 values are idealised as rationals; the special
values that arise from division (`±inf`, `NaN`) are modelled explicitly by
`Flt`, with IEEE-754 semantics (every comparison with `NaN` is false, `0/0`
is `NaN`, `x/0` is a signed infinity).  Arrays are dense d-dimensional grids:
a shape together with a total valuation on integer multi-indices;
out-of-bounds reads occur only through `Arr.bval`, which applies the zero
border value that scipy's `binary_erosion`/`binary_dilation` use by default.

The `fcycle` global that alternates the two curvature composites is modelled
as an explicit phase bit (`false` = next call uses `SIoIS`, the first element
of the cycle; `true` = next call uses `ISoSI`) threaded through every
operation that invokes the smoothing operator, and the raised `ValueError`s
of the source are modelled by the `Err` type returned alongside the
post-call state.
-/

/-- IEEE-754-style scalar: a finite rational or one of the special values
`+inf`, `-inf`, `NaN` that the source can produce by dividing by zero. -/
inductive Flt : Type
  | fin (q : ℚ)
  | pinf
  | ninf
  | nan
deriving DecidableEq

/-- Float subtraction on `Flt` (IEEE rules; `NaN` propagates, `inf - inf = NaN`). -/
def Flt.sub : Flt → Flt → Flt
  | nan, _ => nan
  | _, nan => nan
  | fin a, fin b => fin (a - b)
  | fin _, pinf => ninf
  | fin _, ninf => pinf
  | pinf, fin _ => pinf
  | ninf, fin _ => ninf
  | pinf, pinf => nan
  | pinf, ninf => pinf
  | ninf, pinf => ninf
  | ninf, ninf => nan

/-- Float multiplication on `Flt` (IEEE rules; `0 * inf = NaN`). -/
def Flt.mul : Flt → Flt → Flt
  | nan, _ => nan
  | _, nan => nan
  | fin a, fin b => fin (a * b)
  | fin a, pinf => if 0 < a then pinf else if a < 0 then ninf else nan
  | fin a, ninf => if 0 < a then ninf else if a < 0 then pinf else nan
  | pinf, fin b => if 0 < b then pinf else if b < 0 then ninf else nan
  | ninf, fin b => if 0 < b then ninf else if b < 0 then pinf else nan
  | pinf, pinf => pinf
  | pinf, ninf => ninf
  | ninf, pinf => ninf
  | ninf, ninf => pinf

/-- Float squaring. -/
def Flt.sq (a : Flt) : Flt := a.mul a

/-- Float strict comparison: any comparison involving `NaN` is false. -/
def Flt.lt : Flt → Flt → Bool
  | nan, _ => false
  | _, nan => false
  | fin a, fin b => decide (a < b)
  | fin _, pinf => true
  | fin _, ninf => false
  | pinf, fin _ => false
  | ninf, fin _ => true
  | pinf, pinf => false
  | pinf, ninf => false
  | ninf, pinf => true
  | ninf, ninf => false

/-- Float division of two finite values, as numpy performs it: `0/0 = NaN`,
`x/0 = ±inf` for `x ≠ 0`, and the exact quotient otherwise. -/
def Flt.div (a b : ℚ) : Flt :=
  if b = 0 then (if 0 < a then .pinf else if a < 0 then .ninf else .nan)
  else .fin (a / b)

/-- Whether a float value is finite (not `±inf` and not `NaN`). -/
def Flt.isFinite : Flt → Bool
  | fin _ => true
  | _ => false

/-- A dense `d`-dimensional numpy array over the rationals: a shape and a
total valuation on integer multi-indices.  Only the values at in-bounds
indices are meaningful; all array-producing operations below define the
out-of-bounds values uniformly as well. -/
structure Arr (d : ℕ) where
  shape : Fin d → ℕ
  val : (Fin d → ℤ) → ℚ

variable {d : ℕ}

/-- The index `x` lies inside the array bounds. -/
def Arr.inBounds (u : Arr d) (x : Fin d → ℤ) : Prop :=
  ∀ a, 0 ≤ x a ∧ x a < u.shape a

instance (u : Arr d) (x : Fin d → ℤ) : Decidable (u.inBounds x) := by
  unfold Arr.inBounds; infer_instance

/-- Read the array as a boolean image with zero border value: `true` iff the
index is in bounds and the stored value is nonzero.  This is how scipy's
binary morphology (with the default `border_value=0`) sees the input. -/
def Arr.bval (u : Arr d) (x : Fin d → ℤ) : Bool :=
  decide (u.inBounds x) && decide (u.val x ≠ 0)

/-- `binary_erosion(u, k)` for a structuring element given as its list of
offsets from the centre: a voxel survives iff every offset lands on a true
voxel (out-of-bounds counts as false).  The result is stored back as floats
`0`/`1`, as the source does by writing into the float scratch buffer. -/
def erode (u : Arr d) (k : List (Fin d → ℤ)) : Arr d :=
  ⟨u.shape, fun x => if k.all (fun o => u.bval (x + o)) then 1 else 0⟩

/-- `binary_dilation(u, k)`: a voxel becomes true iff some offset lands on a
true voxel.  All structuring elements used by the source are symmetric under
point reflection, so the reflection scipy applies to the structuring element
is the identity here. -/
def dilate (u : Arr d) (k : List (Fin d → ℤ)) : Arr d :=
  ⟨u.shape, fun x => if k.any (fun o => u.bval (x + o)) then 1 else 0⟩

/-- `_P2[0] = np.eye(3)`: the main diagonal, offsets `(t, t)`. -/
def P2k0 : List (Fin 2 → ℤ) := [![-1,-1], ![0,0], ![1,1]]

/-- `_P2[1] = np.array([[0,1,0]]*3)`: the middle column, offsets `(t, 0)`. -/
def P2k1 : List (Fin 2 → ℤ) := [![-1,0], ![0,0], ![1,0]]

/-- `_P2[2] = np.flipud(np.eye(3))`: the anti-diagonal, offsets `(t, -t)`. -/
def P2k2 : List (Fin 2 → ℤ) := [![-1,1], ![0,0], ![1,-1]]

/-- `_P2[3] = np.rot90([[0,1,0]]*3)`: the middle row, offsets `(0, t)`. -/
def P2k3 : List (Fin 2 → ℤ) := [![0,-1], ![0,0], ![0,1]]

/-- The 2-dimensional structuring-element family `_P2` (4 elements). -/
def P2 : List (List (Fin 2 → ℤ)) := [P2k0, P2k1, P2k2, P2k3]

/-- `_P3[0]`: `[:,:,1] = 1`, the plane of offsets `(a, b, 0)`. -/
def P3k0 : List (Fin 3 → ℤ) :=
  [![-1,-1,0], ![-1,0,0], ![-1,1,0], ![0,-1,0], ![0,0,0], ![0,1,0],
   ![1,-1,0], ![1,0,0], ![1,1,0]]

/-- `_P3[1]`: `[:,1,:] = 1`, the plane of offsets `(a, 0, c)`. -/
def P3k1 : List (Fin 3 → ℤ) :=
  [![-1,0,-1], ![-1,0,0], ![-1,0,1], ![0,0,-1], ![0,0,0], ![0,0,1],
   ![1,0,-1], ![1,0,0], ![1,0,1]]

/-- `_P3[2]`: `[1,:,:] = 1`, the plane of offsets `(0, b, c)`. -/
def P3k2 : List (Fin 3 → ℤ) :=
  [![0,-1,-1], ![0,-1,0], ![0,-1,1], ![0,0,-1], ![0,0,0], ![0,0,1],
   ![0,1,-1], ![0,1,0], ![0,1,1]]

/-- `_P3[3]`: `[:,[0,1,2],[0,1,2]] = 1`, the diagonal plane `(a, t, t)`. -/
def P3k3 : List (Fin 3 → ℤ) :=
  [![-1,-1,-1], ![-1,0,0], ![-1,1,1], ![0,-1,-1], ![0,0,0], ![0,1,1],
   ![1,-1,-1], ![1,0,0], ![1,1,1]]

/-- `_P3[4]`: `[:,[0,1,2],[2,1,0]] = 1`, the diagonal plane `(a, t, -t)`. -/
def P3k4 : List (Fin 3 → ℤ) :=
  [![-1,-1,1], ![-1,0,0], ![-1,1,-1], ![0,-1,1], ![0,0,0], ![0,1,-1],
   ![1,-1,1], ![1,0,0], ![1,1,-1]]

/-- `_P3[5]`: `[[0,1,2],:,[0,1,2]] = 1`, the diagonal plane `(t, b, t)`. -/
def P3k5 : List (Fin 3 → ℤ) :=
  [![-1,-1,-1], ![-1,0,-1], ![-1,1,-1], ![0,-1,0], ![0,0,0], ![0,1,0],
   ![1,-1,1], ![1,0,1], ![1,1,1]]

/-- `_P3[6]`: `[[0,1,2],:,[2,1,0]] = 1`, the diagonal plane `(t, b, -t)`. -/
def P3k6 : List (Fin 3 → ℤ) :=
  [![-1,-1,1], ![-1,0,1], ![-1,1,1], ![0,-1,0], ![0,0,0], ![0,1,0],
   ![1,-1,-1], ![1,0,-1], ![1,1,-1]]

/-- `_P3[7]`: `[[0,1,2],[0,1,2],:] = 1`, the diagonal plane `(t, t, c)`. -/
def P3k7 : List (Fin 3 → ℤ) :=
  [![-1,-1,-1], ![-1,-1,0], ![-1,-1,1], ![0,0,-1], ![0,0,0], ![0,0,1],
   ![1,1,-1], ![1,1,0], ![1,1,1]]

/-- `_P3[8]`: `[[0,1,2],[2,1,0],:] = 1`, the diagonal plane `(t, -t, c)`. -/
def P3k8 : List (Fin 3 → ℤ) :=
  [![-1,1,-1], ![-1,1,0], ![-1,1,1], ![0,0,-1], ![0,0,0], ![0,0,1],
   ![1,-1,-1], ![1,-1,0], ![1,-1,1]]

/-- The 3-dimensional structuring-element family `_P3` (9 elements). -/
def P3 : List (List (Fin 3 → ℤ)) :=
  [P3k0, P3k1, P3k2, P3k3, P3k4, P3k5, P3k6, P3k7, P3k8]

/-- The errors (`ValueError`s) the source can raise. -/
inductive Err : Type
  | invalidDims
  | levelsetUnset
deriving DecidableEq

/-- The structuring-element family selected by dimensionality, or `none`
for an unsupported rank — this is the `np.ndim`-dispatch at the top of both
`SI` and `IS`. -/
def Pfam : (d : ℕ) → Option (List (List (Fin d → ℤ)))
  | 2 => some P2
  | 3 => some P3
  | _ => none

/-- `SI(u)`: erode by every element of the dimension-appropriate family and
take the voxelwise maximum of the slices of the scratch buffer (every slice
is overwritten before the maximum is taken, so the buffer is semantically
transparent; its values are `0`/`1`, hence folding `max` with initial value
`0` agrees with numpy's `max` over the first axis).  Raises the
dimensionality `ValueError` when the rank is not 2 or 3. -/
def SI (u : Arr d) : Except Err (Arr d) :=
  match Pfam d with
  | none => .error .invalidDims
  | some P => .ok ⟨u.shape, fun x => (P.map (fun k => (erode u k).val x)).foldr max 0⟩

/-- `IS(u)`: dilate by every family element and take the voxelwise minimum
(values are `0`/`1`, so folding `min` with initial value `1` agrees with
numpy's `min` over the first axis). -/
def IS (u : Arr d) : Except Err (Arr d) :=
  match Pfam d with
  | none => .error .invalidDims
  | some P => .ok ⟨u.shape, fun x => (P.map (fun k => (dilate u k).val x)).foldr min 1⟩

/-- `SIoIS = lambda u: SI(IS(u))`. -/
def SIoIS (u : Arr d) : Except Err (Arr d) := (IS u).bind SI

/-- `ISoSI = lambda u: IS(SI(u))`. -/
def ISoSI (u : Arr d) : Except Err (Arr d) := (SI u).bind IS

/-- One call of `curvop = fcycle([SIoIS, ISoSI])`: the phase bit selects the
composite and always advances, exactly as `next` on the cycle is consumed
before the selected function is applied (so the phase advances even when the
selected composite raises). -/
def curvop (ph : Bool) (u : Arr d) : Bool × Except Err (Arr d) :=
  (!ph, if ph then ISoSI u else SIoIS u)

/-- `n` successive `curvop` applications, as performed by the smoothing loop
`for i in range(self.smoothing): res = curvop(res)`; stops at the first
raised error. -/
def smoothIter : ℕ → Bool → Arr d → Bool × Except Err (Arr d)
  | 0, ph, u => (ph, .ok u)
  | n+1, ph, u =>
    match curvop ph u with
    | (ph', .ok v) => smoothIter n ph' v
    | (ph', .error e) => (ph', .error e)

/-- The index `x` with coordinate `a` shifted by `t`. -/
def bump (x : Fin d → ℤ) (a : Fin d) (t : ℤ) : Fin d → ℤ :=
  fun b => if b = a then x b + t else x b

/-- One component of `np.gradient`: central differences in the interior,
one-sided differences at the two borders of axis `a`.  (numpy raises on an
axis of extent `< 2`; that case is modelled as the constant `0` and is never
reached by the claims, which concern arrays of extent at least 2.) -/
def gradAxis (u : Arr d) (a : Fin d) : Arr d :=
  ⟨u.shape, fun x =>
    if u.shape a ≤ 1 then 0
    else if x a = 0 then u.val (bump x a 1) - u.val x
    else if x a = (u.shape a : ℤ) - 1 then u.val x - u.val (bump x a (-1))
    else (u.val (bump x a 1) - u.val (bump x a (-1))) / 2⟩

/-- `np.abs(np.gradient(u)).sum(0)` at one voxel: the sum over axes of the
absolute per-axis gradients. -/
def absGradSum (u : Arr d) (x : Fin d → ℤ) : ℚ :=
  ((List.finRange d).map (fun a => |(gradAxis u a).val x|)).sum

/-- Enumeration of all in-bounds multi-indices of a `d`-dimensional shape
(row-major order; the order is irrelevant, only membership is used). -/
def idxEnum : (d : ℕ) → (Fin d → ℕ) → List (Fin d → ℤ)
  | 0, _ => [fun _ => 0]
  | e+1, sh =>
    ((List.range (sh 0)).map Int.ofNat).flatMap
      (fun i => (idxEnum e (fun a => sh a.succ)).map (fun t => Fin.cons i t))

/-- Sum of `f` over all in-bounds multi-indices of the grid of `u`. -/
def gridSum (u : Arr d) (f : (Fin d → ℤ) → ℚ) : ℚ :=
  ((idxEnum d u.shape).map f).sum

/-- Every entry of the array is `0` or `1`. -/
def IsBinary (u : Arr d) : Prop := ∀ x, u.val x = 0 ∨ u.val x = 1

/-- The body shared by both `set_levelset` methods:
`self._u = np.double(u); self._u[u>0] = 1; self._u[u<=0] = 0`, i.e. the
indicator of `u > 0`. -/
def binarize (u : Arr d) : Arr d := ⟨u.shape, fun x => if 0 < u.val x then 1 else 0⟩

/-- The state of a `MorphACWE` solver (the RegionEvolver): the bound image
`data`, the parameters, and the level set `_u` (which is `None` until
`set_levelset` is called). -/
structure MorphACWE (d : ℕ) where
  data : Arr d
  smoothing : ℕ
  lambda1 : ℚ
  lambda2 : ℚ
  u : Option (Arr d)

/-- `MorphACWE.__init__`: binds the data and parameters, leaves `_u = None`. -/
def mkACWE (data : Arr d) (smoothing : ℕ) (lambda1 lambda2 : ℚ) : MorphACWE d :=
  ⟨data, smoothing, lambda1, lambda2, none⟩

/-- `MorphACWE.set_levelset`. -/
def MorphACWE.setLevelset (s : MorphACWE d) (w : Arr d) : MorphACWE d :=
  { s with u := some (binarize w) }

/-- The pre-smoothing body of `MorphACWE.step`: the two region means
`c0 = data[outside].sum()/outside.sum()` (outside is `u <= 0`) and
`c1 = data[inside].sum()/inside.sum()` (inside is `u > 0`), the energy
`aux = abs_dres * (lambda1*(data-c1)**2 - lambda2*(data-c0)**2)`, and the
two sequential masked assignments `res[aux < 0] = 1; res[aux > 0] = 0` on a
copy of `u` (the second write is applied after, hence on top of, the
first). -/
def acweRes (s : MorphACWE d) (u : Arr d) : Arr d :=
  let c0 : Flt := Flt.div (gridSum u (fun x => if u.val x ≤ 0 then s.data.val x else 0))
                          (gridSum u (fun x => if u.val x ≤ 0 then 1 else 0))
  let c1 : Flt := Flt.div (gridSum u (fun x => if 0 < u.val x then s.data.val x else 0))
                          (gridSum u (fun x => if 0 < u.val x then 1 else 0))
  let aux : (Fin d → ℤ) → Flt := fun x =>
    (Flt.fin (absGradSum u x)).mul
      (((Flt.fin s.lambda1).mul ((Flt.fin (s.data.val x)).sub c1).sq).sub
        ((Flt.fin s.lambda2).mul ((Flt.fin (s.data.val x)).sub c0).sq))
  let res1 : Arr d := ⟨u.shape, fun x => if (aux x).lt (.fin 0) then 1 else u.val x⟩
  ⟨u.shape, fun x => if (Flt.fin 0).lt (aux x) then 0 else res1.val x⟩

/-- `MorphACWE.step`, with the curvature-cycle phase threaded through.
Returns the post-call state, the new phase, and the raised error if any
(on an error the level set is unchanged, since `self._u = res` is only
executed after the smoothing loop finishes). -/
def MorphACWE.step (s : MorphACWE d) (ph : Bool) : MorphACWE d × Bool × Option Err :=
  match s.u with
  | none => (s, ph, some .levelsetUnset)
  | some u =>
    match smoothIter s.smoothing ph (acweRes s u) with
    | (ph', .ok r) => ({ s with u := some r }, ph', none)
    | (ph', .error e) => (s, ph', some e)

/-- `MorphACWE.run(iterations)`: `step` executed `n` times; a raised error
propagates out of the loop. -/
def MorphACWE.run : ℕ → MorphACWE d → Bool → MorphACWE d × Bool × Option Err
  | 0, s, ph => (s, ph, none)
  | n+1, s, ph =>
    match s.step ph with
    | (s', ph', none) => MorphACWE.run n s' ph'
    | (s', ph', some e) => (s', ph', some e)

/-- `volu = sum(u[u>0])`: the sum of the positive level-set entries (for a
binary level set this is the foreground voxel count). -/
def MorphACWE.foregroundSum (s : MorphACWE d) : ℚ :=
  match s.u with
  | some r => gridSum r (fun x => if 0 < r.val x then r.val x else 0)
  | none => 0

/-- `np.sum(forward_diff_store[i-6:i-1])`: the slice covers the five indices
`i-6 … i-2`, so the most recent difference (at `i-1`) is NOT included. -/
def sliderSum (i : ℕ) (fds : ℕ → ℚ) : ℚ :=
  ((List.range 5).map (fun j => fds (i - 6 + j))).sum

/-- The early-stop test
`np.absolute(s) < 20 | (np.absolute(s) < 0.1*fg)` exactly as Python parses
it: `|` binds tighter than `<`, so the right-hand side is the integer
`20 | bool`, which is `21` when the relative comparison holds (`20 | 1`) and
`20` otherwise. -/
def convergeTest (slider fgi : ℚ) : Bool :=
  decide (|slider| < (if |slider| < fgi / 10 then (21 : ℚ) else 20))

/-- The loop body of `MorphACWE.autoconvg`, with the iteration counter `i`,
the fuel counting down from the iteration cap, and the two result stores
(`foreground_num`, `forward_diff_store`) as updatable sequences.  Returns
the final state, phase, the number of the iterations performed, and any
propagated error. -/
def autoconvgAux : ℕ → ℕ → MorphACWE d → Bool → (ℕ → ℚ) → (ℕ → ℚ) →
    MorphACWE d × Bool × ℕ × Option Err
  | 0, i, s, ph, _, _ => (s, ph, i, none)
  | fuel+1, i, s, ph, fg, fds =>
    match s.step ph with
    | (s', ph', some e) => (s', ph', i, some e)
    | (s', ph', none) =>
      let volu := s'.foregroundSum
      let fg' : ℕ → ℚ := fun j => if j = i then volu else fg j
      if 0 < i then
        let diff := fg' i - fg' (i-1)
        let fds' : ℕ → ℚ := fun j => if j = i - 1 then diff else fds j
        if 6 < i then
          if convergeTest (sliderSum i fds') (fg' i) then (s', ph', i+1, none)
          else autoconvgAux fuel (i+1) s' ph' fg' fds'
        else autoconvgAux fuel (i+1) s' ph' fg' fds'
      else autoconvgAux fuel (i+1) s' ph' fg' fds

/-- `MorphACWE.autoconvg`: the automatic-convergence loop with its fixed
iteration cap of 200. -/
def MorphACWE.autoconvg (s : MorphACWE d) (ph : Bool) :
    MorphACWE d × Bool × ℕ × Option Err :=
  autoconvgAux 200 0 s ph (fun _ => 0) (fun _ => 0)

/-- The state of a `MorphGAC` solver (the EdgeEvolver): level set `_u`,
balloon strength `_v`, threshold `_theta`, smoothing count, the
edge-stopping field `_data`, its precomputed gradient `_ddata`, the
full-connectivity structuring element `self.structure`
(`np.ones((3,)*ndim)`), and the two derived threshold masks. -/
structure MorphGAC (d : ℕ) where
  u : Option (Arr d)
  v : ℚ
  theta : ℚ
  smoothing : ℕ
  data : Arr d
  ddata : Fin d → Arr d
  strel : List (Fin d → ℤ)
  thresholdMask : (Fin d → ℤ) → Bool
  thresholdMaskV : (Fin d → ℤ) → Bool

/-- The offsets of `np.ones((3,)*d)`: the full cube of side 3 centred at the
origin (symmetric, so scipy's structure reflection is the identity). -/
def cube (d : ℕ) : List (Fin d → ℤ) :=
  (idxEnum d (fun _ => 3)).map (fun f a => f a - 1)

/-- `MorphGAC._update_mask`: recompute the two derived masks.
`self._threshold_mask = self._data > self._theta` and
`self._threshold_mask_v = self._data > self._theta/np.abs(self._v)` — the
division is performed unconditionally, so a zero balloon gives a
non-finite (`NaN` or `±inf`) right-hand side, and the numpy comparison with
the non-finite scalar is then elementwise `False` (for `NaN` or `+inf`) or
`True` (for `-inf`). -/
def gacUpdateMask (s : MorphGAC d) : MorphGAC d :=
  { s with
    thresholdMask := fun x => decide (s.theta < s.data.val x),
    thresholdMaskV := fun x => (Flt.div s.theta |s.v|).lt (.fin (s.data.val x)) }

/-- `MorphGAC.set_data`: bind the data, precompute `np.gradient(data)`,
recompute the masks and the full-connectivity structuring element. -/
def gacSetData (s : MorphGAC d) (data : Arr d) : MorphGAC d :=
  { gacUpdateMask { s with data := data, ddata := fun a => gradAxis data a } with
    strel := cube d }

/-- `MorphGAC.__init__(data, smoothing=1, threshold=0, balloon=0)`: sets
`_u = None`, the scalar parameters, and then `set_data(data)` (which fills
in the derived fields; the pre-`set_data` values of those fields are
placeholders that `set_data` immediately overwrites). -/
def mkGAC (data : Arr d) (smoothing : ℕ) (threshold balloon : ℚ) : MorphGAC d :=
  gacSetData
    { u := none, v := balloon, theta := threshold, smoothing := smoothing,
      data := data, ddata := fun _ => data, strel := [],
      thresholdMask := fun _ => false, thresholdMaskV := fun _ => false }
    data

/-- `MorphGAC.set_balloon(v)`: store and recompute the masks. -/
def gacSetBalloon (s : MorphGAC d) (v : ℚ) : MorphGAC d :=
  gacUpdateMask { s with v := v }

/-- `MorphGAC.set_threshold(theta)`: store and recompute the masks. -/
def gacSetThreshold (s : MorphGAC d) (t : ℚ) : MorphGAC d :=
  gacUpdateMask { s with theta := t }

/-- `MorphGAC.set_levelset`. -/
def MorphGAC.setLevelset (s : MorphGAC d) (w : Arr d) : MorphGAC d :=
  { s with u := some (binarize w) }

/-- The pre-smoothing body of `MorphGAC.step`: the balloon force (dilation
for `ν > 0`, erosion for `ν < 0`, merged into a copy of `u` through
`threshold_mask_v` when `ν ≠ 0`), then the edge attachment
`aux = sum over axes of dgI * gradient(res)` with its two sequential masked
writes `res[aux > 0] = 1; res[aux < 0] = 0`. -/
def gacRes (s : MorphGAC d) (u : Arr d) : Arr d :=
  let res0 : Arr d :=
    if 0 < s.v then
      ⟨u.shape, fun x => if s.thresholdMaskV x then (dilate u s.strel).val x else u.val x⟩
    else if s.v < 0 then
      ⟨u.shape, fun x => if s.thresholdMaskV x then (erode u s.strel).val x else u.val x⟩
    else u
  let aux : (Fin d → ℤ) → ℚ := fun x =>
    ((List.finRange d).map (fun a => (s.ddata a).val x * (gradAxis res0 a).val x)).sum
  let res1 : Arr d := ⟨u.shape, fun x => if 0 < aux x then 1 else res0.val x⟩
  ⟨u.shape, fun x => if aux x < 0 then 0 else res1.val x⟩

/-- `MorphGAC.step` proper: the unset check, then the pre-smoothing body
`gacRes`, then the smoothing loop. -/
def MorphGAC.step (s : MorphGAC d) (ph : Bool) : MorphGAC d × Bool × Option Err :=
  match s.u with
  | none => (s, ph, some .levelsetUnset)
  | some u =>
    match smoothIter s.smoothing ph (gacRes s u) with
    | (ph', .ok r) => ({ s with u := some r }, ph', none)
    | (ph', .error e) => (s, ph', some e)

/-- `circle_levelset(shape, center, sqradius)`: the binary field that is `1`
where `sqradius - ‖x - center‖ > 0`.  The irrational Euclidean norm is
eliminated exactly: for a real radius `r`, `‖x-c‖ < r` iff `0 < r` and
`‖x-c‖² < r²`, which is a rational comparison.  (The unused `scalerow`
parameter of the source is omitted.) -/
def circle_levelset (shape : Fin 3 → ℕ) (center : Fin 3 → ℤ) (sqradius : ℚ) : Arr 3 :=
  ⟨shape, fun x =>
    if 0 < sqradius ∧
        ((List.finRange 3).map (fun a => ((x a - center a : ℤ) : ℚ)^2)).sum < sqradius^2
    then 1 else 0⟩

/-- `astype(np.uint8)` on the values this program produces (`0` and `40`,
plus the zero background): floor, then reduce modulo 256. -/
def castU8 (q : ℚ) : ℚ := ((⌊q⌋.toNat % 256 : ℕ) : ℚ)

/-- An externally visible file-access effect of the orchestrator.  Modelled
from the spec: `writetiff3d` (imported from `rivuletpy.utils.io`, which is
not part of the analysed source) is the volumetric file writer, so a call
to it is modelled as a file-write effect carrying the path and the written
array.  The orchestrator's `print` calls write to the console, not to any
file, and are not effects of this type. -/
inductive Effect : Type
  | writeFile (path : String) (content : Arr 3)

/-- The path of a file-access effect. -/
def Effect.path : Effect → String
  | writeFile p _ => p

/-- The evolution phase of `soma_detect`: `autoconvg` when `iterations` is
the sentinel `-1`, otherwise `iterations` plain steps (`range(iterations)`
is empty for other negative values, hence `Int.toNat`). -/
def somaEvolve (s0 : MorphACWE 3) (iterations : ℤ) (ph : Bool) :
    MorphACWE 3 × Bool × Option Err :=
  if iterations = -1 then
    let t := s0.autoconvg ph
    (t.1, t.2.1, t.2.2.2)
  else
    MorphACWE.run iterations.toNat s0 ph

/-- `soma_detect(img, somapos, somaradius, smoothing, lambda1, lambda2,
soma, iterations)`.  The only use the source makes of `somaradius` is the
float `somaradius**0.5`, so the embedding takes that (irrational) square
root directly as the rational parameter `sqrtRadius`.  The `soma` flag is
accepted and ignored, exactly as in the source.  Returns the list of file
effects performed, the final `uint8` mask, the final curvature phase and
any propagated error.  `startpt`/`endpt` are clamped to `[0, shape-1]` and
cast with `astype(int)`; all clamped values are integer-valued (being
integers plus `3*floor(...)`), so the cast is exact.  The crop is
`img[startpt:endpt]`, the level-set seed is a circle of radius `sqrval`
centred at `floor(shape/2)`, and the result is written into a zero
full-size mask as `macwe._u * 40`, cast to `uint8`. -/
def soma_detect (img : Arr 3) (somapos : Fin 3 → ℤ) (sqrtRadius : ℚ)
    (smoothing : ℕ) (lambda1 lambda2 : ℚ) (soma : Bool) (iterations : ℤ)
    (ph : Bool) : List Effect × Arr 3 × Bool × Option Err :=
  let ratioxz : ℚ := (img.shape 0 : ℚ) / (img.shape 2 : ℚ)
  let ratioyz : ℚ := (img.shape 1 : ℚ) / (img.shape 2 : ℚ)
  let sqrval : ℚ := (⌊min (max (sqrtRadius * max ratioxz ratioyz) 3) (sqrtRadius * 6)⌋ : ℤ)
  let startpt : Fin 3 → ℤ :=
    fun a => ⌊min (max 0 ((somapos a : ℚ) - 3 * sqrval)) ((img.shape a : ℚ) - 1)⌋
  let endpt : Fin 3 → ℤ :=
    fun a => ⌊min (max 0 ((somapos a : ℚ) + 3 * sqrval)) ((img.shape a : ℚ) - 1)⌋
  let cropShape : Fin 3 → ℕ := fun a => (endpt a - startpt a).toNat
  let somaimg : Arr 3 := ⟨cropShape, fun x => img.val (fun a => x a + startpt a)⟩
  let centerpt : Fin 3 → ℤ := fun a => ⌊(cropShape a : ℚ) / 2⌋
  let macwe : MorphACWE 3 :=
    (mkACWE somaimg smoothing lambda1 lambda2).setLevelset
      (circle_levelset cropShape centerpt sqrval)
  let t := somaEvolve macwe iterations ph
  ([Effect.writeFile "/home/donghao/Desktop/zebrafishlarveRGC/2_somabox.tif" somaimg],
   ⟨img.shape, fun x =>
      castU8 (if (∀ a, startpt a ≤ x a ∧ x a < endpt a) then
          (match t.1.u with
           | some r => r.val (fun a => x a - startpt a)
           | none => 0) * 40
        else 0)⟩,
   t.2.1, t.2.2)

/-- The next level set as the specification words it (one Chan-Vese
region-competition update, before smoothing): `c0` the mean intensity over
outside voxels (`u ≤ 0`), `c1` the mean over inside voxels (`u > 0`),
`aux = |∇u| · (λ1·(data−c1)² − λ2·(data−c0)²)` with the gradient magnitude
the per-voxel sum of absolute per-axis gradients, and the new value `1`
where `aux < 0`, `0` where `aux > 0`, unchanged where neither holds. -/
def chanVeseNext (data u : Arr d) (l1 l2 : ℚ) : Arr d :=
  let c0 : Flt := Flt.div (gridSum u (fun x => if u.val x ≤ 0 then data.val x else 0))
                          (gridSum u (fun x => if u.val x ≤ 0 then 1 else 0))
  let c1 : Flt := Flt.div (gridSum u (fun x => if 0 < u.val x then data.val x else 0))
                          (gridSum u (fun x => if 0 < u.val x then 1 else 0))
  ⟨u.shape, fun x =>
    let aux : Flt :=
      (Flt.fin (absGradSum u x)).mul
        (((Flt.fin l1).mul ((Flt.fin (data.val x)).sub c1).sq).sub
          ((Flt.fin l2).mul ((Flt.fin (data.val x)).sub c0).sq))
    if aux.lt (.fin 0) then 1
    else if (Flt.fin 0).lt aux then 0
    else u.val x⟩

/-- The sliding-window statistic as the claim words it: the sum of the six
most recent forward differences available at check index `i` (those stored
at `i-6 … i-1`). -/
def claimSliderSum (i : ℕ) (fds : ℕ → ℚ) : ℚ :=
  ((List.range 6).map (fun j => fds (i - 6 + j))).sum

/-- The early-stop condition as the claim words it: the statistic's absolute
value is below 20, or below 10% of the current foreground count
(logical OR). -/
def claimConvergeTest (slider fgi : ℚ) : Bool :=
  decide (|slider| < 20) || decide (|slider| < fgi / 10)

/-- A 2×2 all-ones binary test array. -/
def onesArr2 : Arr 2 := ⟨fun _ => 2, fun _ => 1⟩

/-- A 2×2 constant test volume of intensity 5. -/
def vol2 : Arr 2 := ⟨fun _ => 2, fun _ => 5⟩

/-- An ACWE evolver bound to `vol2` with an all-ones level set (so the
outside partition `u <= 0` is empty). -/
def acweAllOne : MorphACWE 2 := ⟨vol2, 1, 1, 1, some onesArr2⟩

/-- An ACWE evolver before any `set_levelset` call. -/
def acweUnset : MorphACWE 2 := mkACWE vol2 1 1 1

/-- A GAC evolver before any `set_levelset` call. -/
def gacUnset : MorphGAC 2 := mkGAC vol2 1 0 0

/-- A GAC evolver with a (binarized all-ones) level set bound. -/
def gacSet : MorphGAC 2 := gacUnset.setLevelset onesArr2

/-- A 1-dimensional test array of length 2. -/
def lineArr1 : Arr 1 := ⟨fun _ => 2, fun _ => 1⟩

theorem Arr.ext' {u w : Arr d} (hs : u.shape = w.shape) (hv : u.val = w.val) : u = w := by
  cases u; cases w; cases hs; cases hv; rfl

theorem Flt.sub_nan (a : Flt) : a.sub .nan = .nan := by cases a <;> rfl

theorem Flt.mul_nan (a : Flt) : a.mul .nan = .nan := by cases a <;> rfl

theorem Flt.nan_lt (a : Flt) : Flt.lt .nan a = false := by cases a <;> rfl

theorem Flt.lt_nan (a : Flt) : Flt.lt a .nan = false := by cases a <;> rfl

theorem Flt.lt_asymmetric {a b : Flt} (h : a.lt b = true) : b.lt a = false := by
  cases a <;> cases b <;> simp [Flt.lt] at h ⊢ <;> linarith

theorem Pfam_none {d : ℕ} (h2 : d ≠ 2) (h3 : d ≠ 3) : Pfam d = none := by
  match d, h2, h3 with
  | 0, _, _ => rfl
  | 1, _, _ => rfl
  | 2, h2, _ => exact absurd rfl h2
  | 3, _, h3 => exact absurd rfl h3
  | n+4, _, _ => rfl

theorem SI_ok_of_dim (hd : d = 2 ∨ d = 3) (u : Arr d) : ∃ v, SI u = .ok v := by
  rcases hd with h | h <;> subst h <;> exact ⟨_, rfl⟩

theorem IS_ok_of_dim (hd : d = 2 ∨ d = 3) (u : Arr d) : ∃ v, IS u = .ok v := by
  rcases hd with h | h <;> subst h <;> exact ⟨_, rfl⟩

theorem erode_val_binary (u : Arr d) (k : List (Fin d → ℤ)) (x : Fin d → ℤ) :
    (erode u k).val x = 0 ∨ (erode u k).val x = 1 := by
  simp only [erode]
  split
  · exact Or.inr rfl
  · exact Or.inl rfl

theorem dilate_val_binary (u : Arr d) (k : List (Fin d → ℤ)) (x : Fin d → ℤ) :
    (dilate u k).val x = 0 ∨ (dilate u k).val x = 1 := by
  simp only [dilate]
  split
  · exact Or.inr rfl
  · exact Or.inl rfl

theorem foldr_max_binary :
    ∀ l : List ℚ, (∀ q ∈ l, q = 0 ∨ q = 1) →
      l.foldr max 0 = 0 ∨ l.foldr max 0 = 1 := by
  intro l
  induction l with
  | nil => intro _; exact Or.inl rfl
  | cons a l ih =>
    intro h
    have ha := h a (by simp)
    have hl := ih (fun q hq => h q (by simp [hq]))
    simp only [List.foldr_cons]
    rcases ha with ha | ha <;> rcases hl with hl | hl <;> rw [ha, hl] <;> simp [max_def]

theorem foldr_min_binary :
    ∀ l : List ℚ, (∀ q ∈ l, q = 0 ∨ q = 1) →
      l.foldr min 1 = 0 ∨ l.foldr min 1 = 1 := by
  intro l
  induction l with
  | nil => intro _; exact Or.inr rfl
  | cons a l ih =>
    intro h
    have ha := h a (by simp)
    have hl := ih (fun q hq => h q (by simp [hq]))
    simp only [List.foldr_cons]
    rcases ha with ha | ha <;> rcases hl with hl | hl <;> rw [ha, hl] <;> simp [min_def]

theorem SI_binary {u v : Arr d} (h : SI u = .ok v) : IsBinary v := by
  unfold SI at h
  rcases hP : Pfam d with _ | P <;> rw [hP] at h
  · exact absurd h (by simp)
  · obtain rfl := (Except.ok.inj h).symm
    intro x
    apply foldr_max_binary
    intro q hq
    simp only [List.mem_map] at hq
    obtain ⟨k, _, rfl⟩ := hq
    exact erode_val_binary u k x

theorem IS_binary {u v : Arr d} (h : IS u = .ok v) : IsBinary v := by
  unfold IS at h
  rcases hP : Pfam d with _ | P <;> rw [hP] at h
  · exact absurd h (by simp)
  · obtain rfl := (Except.ok.inj h).symm
    intro x
    apply foldr_min_binary
    intro q hq
    simp only [List.mem_map] at hq
    obtain ⟨k, _, rfl⟩ := hq
    exact dilate_val_binary u k x

theorem curvop_ok_of_dim (hd : d = 2 ∨ d = 3) (ph : Bool) (u : Arr d) :
    ∃ v, curvop ph u = (!ph, .ok v) ∧ IsBinary v := by
  unfold curvop
  cases ph
  · obtain ⟨w, hw⟩ := IS_ok_of_dim hd u
    obtain ⟨v, hv⟩ := SI_ok_of_dim hd w
    exact ⟨v, by simp [SIoIS, hw, hv, Except.bind], SI_binary hv⟩
  · obtain ⟨w, hw⟩ := SI_ok_of_dim hd u
    obtain ⟨v, hv⟩ := IS_ok_of_dim hd w
    exact ⟨v, by simp [ISoSI, hw, hv, Except.bind], IS_binary hv⟩

theorem smoothIter_ok_of_dim (hd : d = 2 ∨ d = 3) :
    ∀ (n : ℕ) (ph : Bool) (u : Arr d), ∃ ph' r, smoothIter n ph u = (ph', .ok r) := by
  intro n
  induction n with
  | zero => intro ph u; exact ⟨ph, u, rfl⟩
  | succ n ih =>
    intro ph u
    obtain ⟨v, hv, _⟩ := curvop_ok_of_dim hd ph u
    obtain ⟨ph', r, hr⟩ := ih (!ph) v
    exact ⟨ph', r, by simp [smoothIter, hv, hr]⟩

theorem curvop_binary {ph ph2 : Bool} {u v : Arr d}
    (h : curvop ph u = (ph2, .ok v)) : IsBinary v := by
  unfold curvop at h
  simp only [Prod.mk.injEq] at h
  obtain ⟨-, hsel⟩ := h
  cases ph
  · simp only [Bool.false_eq_true, if_false] at hsel
    unfold SIoIS at hsel
    rcases his : IS u with e | w <;> rw [his] at hsel
    · simp [Except.bind] at hsel
    · simp only [Except.bind] at hsel
      exact SI_binary hsel
  · simp only [if_true] at hsel
    unfold ISoSI at hsel
    rcases hsi : SI u with e | w <;> rw [hsi] at hsel
    · simp [Except.bind] at hsel
    · simp only [Except.bind] at hsel
      exact IS_binary hsel

theorem smoothIter_binary :
    ∀ (n : ℕ) (ph ph' : Bool) (u r : Arr d), IsBinary u →
      smoothIter n ph u = (ph', .ok r) → IsBinary r := by
  intro n
  induction n with
  | zero =>
    intro ph ph' u r hu h
    simp only [smoothIter, Prod.mk.injEq] at h
    obtain ⟨-, h⟩ := h
    obtain rfl := Except.ok.inj h
    exact hu
  | succ n ih =>
    intro ph ph' u r hu h
    simp only [smoothIter] at h
    rcases hc : curvop ph u with ⟨phc, vc⟩
    rw [hc] at h
    rcases vc with e | v
    · simp at h
    · exact ih phc ph' v r (curvop_binary hc) h

theorem acweRes_binary {s : MorphACWE d} {u : Arr d} (hu : IsBinary u) :
    IsBinary (acweRes s u) := by
  intro x
  unfold acweRes
  dsimp only
  split
  · exact Or.inl rfl
  · split
    · exact Or.inr rfl
    · exact hu x

theorem ifchain_binary {p q : Prop} [Decidable p] [Decidable q] {v : ℚ}
    (hv : v = 0 ∨ v = 1) :
    (if p then (0:ℚ) else if q then 1 else v) = 0 ∨
      (if p then (0:ℚ) else if q then 1 else v) = 1 := by
  by_cases hp : p
  · rw [if_pos hp]; exact Or.inl rfl
  · rw [if_neg hp]
    by_cases hq : q
    · rw [if_pos hq]; exact Or.inr rfl
    · rw [if_neg hq]; exact hv

theorem gacRes_binary {s : MorphGAC d} {u : Arr d} (hu : IsBinary u) :
    IsBinary (gacRes s u) := by
  have h0 : IsBinary
      (if 0 < s.v then
        (⟨u.shape, fun x => if s.thresholdMaskV x then (dilate u s.strel).val x
          else u.val x⟩ : Arr d)
      else if s.v < 0 then
        ⟨u.shape, fun x => if s.thresholdMaskV x then (erode u s.strel).val x else u.val x⟩
      else u) := by
    split
    · intro x
      dsimp only
      split
      · exact dilate_val_binary u s.strel x
      · exact hu x
    · split
      · intro x
        dsimp only
        split
        · exact erode_val_binary u s.strel x
        · exact hu x
      · exact hu
  intro x
  exact ifchain_binary (h0 x)

theorem acweStep_unset {s : MorphACWE d} (hu : s.u = none) (ph : Bool) :
    s.step ph = (s, ph, some .levelsetUnset) := by
  unfold MorphACWE.step
  rw [hu]

theorem gacStep_unset {s : MorphGAC d} (hu : s.u = none) (ph : Bool) :
    s.step ph = (s, ph, some .levelsetUnset) := by
  unfold MorphGAC.step
  rw [hu]

theorem MorphACWE.step_ok {s : MorphACWE d} {u0 : Arr d} (hd : d = 2 ∨ d = 3)
    (hu : s.u = some u0) (ph : Bool) :
    ∃ r ph', s.step ph = ({ s with u := some r }, ph', none) := by
  obtain ⟨ph', r, hr⟩ := smoothIter_ok_of_dim hd s.smoothing ph (acweRes s u0)
  exact ⟨r, ph', by simp only [MorphACWE.step, hu, hr]⟩

theorem acweStep_binary {s : MorphACWE d} {ph : Bool} {u0 u' : Arr d}
    (hu : s.u = some u0) (hb : IsBinary u0) (h : (s.step ph).1.u = some u') :
    IsBinary u' := by
  simp only [MorphACWE.step, hu] at h
  rcases hsm : smoothIter s.smoothing ph (acweRes s u0) with ⟨ph', res⟩
  rw [hsm] at h
  rcases res with e | r
  · simp only at h
    rw [hu] at h
    obtain rfl := Option.some.inj h
    exact hb
  · simp only at h
    obtain rfl := Option.some.inj h
    exact smoothIter_binary s.smoothing ph ph' (acweRes s u0) r (acweRes_binary hb) hsm

theorem gacStep_binary {s : MorphGAC d} {ph : Bool} {u0 u' : Arr d}
    (hu : s.u = some u0) (hb : IsBinary u0) (h : (s.step ph).1.u = some u') :
    IsBinary u' := by
  simp only [MorphGAC.step, hu] at h
  rcases hsm : smoothIter s.smoothing ph (gacRes s u0) with ⟨ph', res⟩
  rw [hsm] at h
  rcases res with e | r
  · simp only at h
    rw [hu] at h
    obtain rfl := Option.some.inj h
    exact hb
  · simp only at h
    obtain rfl := Option.some.inj h
    exact smoothIter_binary s.smoothing ph ph' (gacRes s u0) r (gacRes_binary hb) hsm


theorem autoconvgAux_le :
    ∀ (fuel i : ℕ) (s : MorphACWE d) (ph : Bool) (fg fds : ℕ → ℚ),
      (autoconvgAux fuel i s ph fg fds).2.2.1 ≤ i + fuel := by
  intro fuel
  induction fuel with
  | zero => intro i s ph fg fds; simp [autoconvgAux]
  | succ fuel ih =>
    intro i s ph fg fds
    rcases hst : s.step ph with ⟨s', ph', e⟩
    rcases e with _ | e
    · simp only [autoconvgAux, hst]
      simp only [eq_self_iff_true, if_true]
      split
      · split
        · split <;> split
          · simp
          · exact le_trans (ih (i+1) s' ph' _ _) (by omega)
          · simp
          · exact le_trans (ih (i+1) s' ph' _ _) (by omega)
        · exact le_trans (ih (i+1) s' ph' _ _) (by omega)
      · exact le_trans (ih (i+1) s' ph' _ _) (by omega)
    · simp only [autoconvgAux, hst]
      omega

theorem autoconvgAux_ok (hd : d = 2 ∨ d = 3) :
    ∀ (fuel i : ℕ) (s : MorphACWE d) (ph : Bool) (fg fds : ℕ → ℚ) (u0 : Arr d),
      s.u = some u0 →
      (autoconvgAux fuel i s ph fg fds).2.2.2 = none := by
  intro fuel
  induction fuel with
  | zero => intros; rfl
  | succ fuel ih =>
    intro i s ph fg fds u0 hu
    obtain ⟨r, ph', hst⟩ := MorphACWE.step_ok hd hu ph
    simp only [autoconvgAux, hst]
    simp only [eq_self_iff_true, if_true]
    split
    · split
      · split <;> split
        · rfl
        · exact ih _ _ _ _ _ r rfl
        · rfl
        · exact ih _ _ _ _ _ r rfl
      · exact ih _ _ _ _ _ r rfl
    · exact ih _ _ _ _ _ r rfl
/-- C6: for every Volume and initial LevelSet, `autoconvg()` performs at
most 200 evolution steps — it stops early via the sliding-window condition
or at the fixed iteration cap of 200 — and reaching the cap is not an
error (the returned error component is `none` whenever a level set is
bound and the rank is a supported one, in particular at the cap). -/
theorem autoconvg_within_cap (hd : d = 2 ∨ d = 3) (s : MorphACWE d) (ph : Bool)
    (u0 : Arr d) (hu : s.u = some u0) :
    (s.autoconvg ph).2.2.1 ≤ 200 ∧ (s.autoconvg ph).2.2.2 = none := by
  constructor
  · have := @autoconvgAux_le d 200 0 s ph (fun _ => 0) (fun _ => 0)
    simpa [MorphACWE.autoconvg] using this
  · exact autoconvgAux_ok hd 200 0 s ph _ _ u0 hu

theorem autoconvg_within_cap_witness :
    ((2 : ℕ) = 2 ∨ (2 : ℕ) = 3) ∧ acweAllOne.u = some onesArr2 ∧
      ((acweAllOne.autoconvg false).2.2.1 ≤ 200 ∧
        (acweAllOne.autoconvg false).2.2.2 = none) :=
  ⟨Or.inl rfl, rfl, autoconvg_within_cap (Or.inl rfl) acweAllOne false onesArr2 rfl⟩

/-- C7: for both evolvers, calling `step()` before any level set has been
bound fails with the unset-level-set `ValueError`, and the evolver's state
(and the global curvature phase) is unchanged by the failed call. -/
theorem step_unset_levelset_error :
    ∀ (e : ℕ) (s : MorphACWE e) (g : MorphGAC e) (ph phg : Bool),
      s.u = none → g.u = none →
      s.step ph = (s, ph, some Err.levelsetUnset) ∧
        g.step phg = (g, phg, some Err.levelsetUnset) :=
  fun _ _ _ ph phg hs hg => ⟨acweStep_unset hs ph, gacStep_unset hg phg⟩

theorem step_unset_levelset_error_witness :
    acweUnset.u = none ∧ gacUnset.u = none ∧
      acweUnset.step false = (acweUnset, false, some Err.levelsetUnset) ∧
      gacUnset.step true = (gacUnset, true, some Err.levelsetUnset) := by
  have h := step_unset_levelset_error 2 acweUnset gacUnset false true rfl rfl
  exact ⟨rfl, rfl, h.1, h.2⟩

/-- C8: the LevelSet is binary at all observable points: `set_levelset`
stores exactly the indicator of `u > 0` (so `1` where `u > 0` and `0` where
`u <= 0`), and each `step()` of either evolver maps a binary level set to a
binary level set — hence every level set reachable after `set_levelset` has
all entries in `{0, 1}`. -/
theorem levelset_binary_invariant :
    (∀ (e : ℕ) (w : Arr e),
        (binarize w).val = (fun x => if 0 < w.val x then 1 else 0) ∧
          IsBinary (binarize w))
    ∧ (∀ (e : ℕ) (s : MorphACWE e) (ph : Bool) (u0 u' : Arr e),
        s.u = some u0 → IsBinary u0 → ((s.step ph).1).u = some u' → IsBinary u')
    ∧ (∀ (e : ℕ) (g : MorphGAC e) (ph : Bool) (u0 u' : Arr e),
        g.u = some u0 → IsBinary u0 → ((g.step ph).1).u = some u' → IsBinary u') := by
  refine ⟨fun e w => ⟨rfl, fun x => ?_⟩,
    fun e s ph u0 u' hu hb h => acweStep_binary hu hb h,
    fun e g ph u0 u' hu hb h => gacStep_binary hu hb h⟩
  simp only [binarize]
  split
  · exact Or.inr rfl
  · exact Or.inl rfl

theorem levelset_binary_invariant_witness :
    acweAllOne.u = some onesArr2 ∧ IsBinary onesArr2 ∧
      gacSet.u = some (binarize onesArr2) ∧ IsBinary (binarize onesArr2) ∧
      (∀ u', ((acweAllOne.step false).1).u = some u' → IsBinary u') ∧
      (∀ u', ((gacSet.step false).1).u = some u' → IsBinary u') := by
  refine ⟨rfl, fun x => Or.inr rfl, rfl, (levelset_binary_invariant.1 2 onesArr2).2,
    fun u' h => levelset_binary_invariant.2.1 2 acweAllOne false onesArr2 u' rfl
      (fun x => Or.inr rfl) h,
    fun u' h => levelset_binary_invariant.2.2 2 gacSet false (binarize onesArr2) u' rfl
      (levelset_binary_invariant.1 2 onesArr2).2 h⟩

/-- C9: `MorphACWE.step` is deterministic — two invocations on evolvers
with identical Volume, LevelSet, λ1, λ2 (and the same smoothing repeat
count, which is part of the evolver's fixed configuration) and an identical
curvature-cycle alternation phase produce identical results, in particular
identical next level sets. -/
theorem acwe_step_deterministic :
    ∀ (e : ℕ) (s1 s2 : MorphACWE e) (ph1 ph2 : Bool),
      s1.data = s2.data → s1.u = s2.u → s1.lambda1 = s2.lambda1 →
      s1.lambda2 = s2.lambda2 → s1.smoothing = s2.smoothing → ph1 = ph2 →
      s1.step ph1 = s2.step ph2 := by
  intro e s1 s2 ph1 ph2 h1 h2 h3 h4 h5 h6
  have hs : s1 = s2 := by
    cases s1; cases s2; simp_all
  rw [hs, h6]

theorem acwe_step_deterministic_witness :
    acweAllOne.data = acweAllOne.data ∧ acweAllOne.u = acweAllOne.u ∧
      acweAllOne.step false = acweAllOne.step false :=
  ⟨rfl, rfl,
    acwe_step_deterministic 2 acweAllOne acweAllOne false false rfl rfl rfl rfl rfl rfl⟩

theorem Flt.nan_mul (a : Flt) : Flt.mul .nan a = .nan := by cases a <;> rfl

theorem Flt.nan_sub (a : Flt) : Flt.sub .nan a = .nan := by cases a <;> rfl

theorem sum_ite_zero_of_indicator_zero {P : (Fin d → ℤ) → Prop} [DecidablePred P]
    (f : (Fin d → ℤ) → ℚ) :
    ∀ l : List (Fin d → ℤ),
      (l.map (fun x => if P x then (1:ℚ) else 0)).sum = 0 →
      (l.map (fun x => if P x then f x else 0)).sum = 0 := by
  intro l
  induction l with
  | nil => intro _; rfl
  | cons a l ih =>
    intro h
    simp only [List.map_cons, List.sum_cons] at h ⊢
    have hha : (0:ℚ) ≤ if P a then 1 else 0 := by split <;> norm_num
    have hhl : (0:ℚ) ≤ (l.map (fun x => if P x then (1:ℚ) else 0)).sum := by
      apply List.sum_nonneg
      intro q hq
      simp only [List.mem_map] at hq
      obtain ⟨x, -, rfl⟩ := hq
      split <;> norm_num
    have ha0 : (if P a then (1:ℚ) else 0) = 0 := by linarith
    have hl0 : (l.map (fun x => if P x then (1:ℚ) else 0)).sum = 0 := by linarith
    have hPa : ¬ P a := by
      intro hp
      rw [if_pos hp] at ha0
      norm_num at ha0
    rw [if_neg hPa, zero_add]
    exact ih hl0

theorem gridSum_masked_zero {u : Arr d} {P : (Fin d → ℤ) → Prop} [DecidablePred P]
    (f : (Fin d → ℤ) → ℚ)
    (h : gridSum u (fun x => if P x then 1 else 0) = 0) :
    gridSum u (fun x => if P x then f x else 0) = 0 :=
  sum_ite_zero_of_indicator_zero f (idxEnum d u.shape) h

/-- With an empty inside or outside partition, the sum over the empty side
is `0`, its count is `0`, the corresponding mean is `0/0 = NaN`, every
comparison against the NaN-valued `aux` field is false, and the two masked
writes of `MorphACWE.step` therefore change nothing: the pre-smoothing
result is the input level set itself. -/
theorem acweRes_degenerate {s : MorphACWE d} {u0 : Arr d}
    (hdeg : gridSum u0 (fun x => if u0.val x ≤ 0 then 1 else 0) = 0 ∨
        gridSum u0 (fun x => if 0 < u0.val x then 1 else 0) = 0) :
    acweRes s u0 = u0 := by
  refine Arr.ext' rfl ?_
  funext x
  unfold acweRes
  dsimp only
  rcases hdeg with h | h
  · rw [gridSum_masked_zero (fun x => s.data.val x) h, h]
    simp [Flt.div, Flt.sub_nan, Flt.mul_nan, Flt.sq, Flt.lt_nan, Flt.nan_lt]
  · rw [gridSum_masked_zero (fun x => s.data.val x) h, h]
    simp [Flt.div, Flt.sub_nan, Flt.nan_sub, Flt.mul_nan, Flt.nan_mul, Flt.sq,
      Flt.lt_nan, Flt.nan_lt]

/-- C1 counterexample: a bound 2×2 Volume and an all-ones LevelSet (the
outside partition `u <= 0` is empty), yet `step()` raises no error at all —
the error component of the call is `none`, refuting that a
degenerate-partition error is raised. -/
theorem acwe_step_degenerate_no_error_cex :
    (acweAllOne.step false).2.2 = none := rfl

/-- C1 (amended): on an empty inside or outside partition `step()` raises
nothing; the empty side's mean is the float NaN (`0/0`), every comparison
with the NaN-valued energy is false, so the update passes the level set
through unchanged and the step reduces to the smoothing loop alone. -/
theorem acwe_step_degenerate_partition_nan (e : ℕ) (hd : e = 2 ∨ e = 3)
    (s : MorphACWE e) (ph : Bool) (u0 : Arr e) (hu : s.u = some u0)
    (hdeg : gridSum u0 (fun x => if u0.val x ≤ 0 then 1 else 0) = 0 ∨
        gridSum u0 (fun x => if 0 < u0.val x then 1 else 0) = 0) :
    ∃ ph' r, smoothIter s.smoothing ph u0 = (ph', Except.ok r) ∧
      s.step ph = ({ s with u := some r }, ph', none) := by
  obtain ⟨ph', r, hr⟩ := smoothIter_ok_of_dim hd s.smoothing ph u0
  refine ⟨ph', r, hr, ?_⟩
  simp only [MorphACWE.step, hu, acweRes_degenerate hdeg, hr]

theorem acwe_step_degenerate_partition_nan_witness :
    ((2:ℕ) = 2 ∨ (2:ℕ) = 3) ∧ acweAllOne.u = some onesArr2 ∧
      gridSum onesArr2 (fun x => if onesArr2.val x ≤ 0 then 1 else 0) = 0 ∧
      (∃ ph' r, smoothIter acweAllOne.smoothing false onesArr2 = (ph', Except.ok r) ∧
        acweAllOne.step false = ({ acweAllOne with u := some r }, ph', none)) := by
  have hout : gridSum onesArr2 (fun x => if onesArr2.val x ≤ 0 then 1 else 0) = 0 := by
    unfold gridSum
    apply List.sum_eq_zero
    intro q hq
    simp only [List.mem_map] at hq
    obtain ⟨x, -, rfl⟩ := hq
    norm_num [onesArr2]
  exact ⟨Or.inl rfl, rfl, hout,
    acwe_step_degenerate_partition_nan 2 (Or.inl rfl) acweAllOne false onesArr2 rfl
      (Or.inl hout)⟩

theorem ite_swap_flt (A : Flt) (v : ℚ) :
    (if (Flt.fin 0).lt A then (0:ℚ) else if A.lt (.fin 0) then 1 else v)
      = (if A.lt (.fin 0) then (1:ℚ) else if (Flt.fin 0).lt A then 0 else v) := by
  rcases h1 : A.lt (.fin 0) <;> rcases h2 : (Flt.fin 0).lt A <;> simp [h1, h2]
  have h3 := Flt.lt_asymmetric h1
  rw [h3] at h2
  exact absurd h2 (by simp)

/-- C4: one `MorphACWE.step` on a bound level set is exactly the spec's
Chan-Vese region-competition update (`chanVeseNext`: outside mean `c0`,
inside mean `c1`, energy `aux = |∇u|·(λ1(data−c1)² − λ2(data−c0)²)`, set 1
where `aux < 0`, 0 where `aux > 0`, unchanged at ties) followed by
`smoothing` applications of the curvature operator, with no error raised. -/
theorem acwe_step_chanvese (e : ℕ) (hd : e = 2 ∨ e = 3) (s : MorphACWE e)
    (ph : Bool) (u0 : Arr e) (hu : s.u = some u0) :
    ∃ ph' r,
      smoothIter s.smoothing ph (chanVeseNext s.data u0 s.lambda1 s.lambda2)
          = (ph', Except.ok r) ∧
        s.step ph = ({ s with u := some r }, ph', none) := by
  have hres : acweRes s u0 = chanVeseNext s.data u0 s.lambda1 s.lambda2 := by
    refine Arr.ext' rfl ?_
    funext x
    unfold acweRes chanVeseNext
    dsimp only
    exact ite_swap_flt _ _
  obtain ⟨ph', r, hr⟩ :=
    smoothIter_ok_of_dim hd s.smoothing ph (chanVeseNext s.data u0 s.lambda1 s.lambda2)
  refine ⟨ph', r, hr, ?_⟩
  simp only [MorphACWE.step, hu, hres, hr]

theorem acwe_step_chanvese_witness :
    ((2:ℕ) = 2 ∨ (2:ℕ) = 3) ∧ acweAllOne.u = some onesArr2 ∧
      (∃ ph' r,
        smoothIter acweAllOne.smoothing false
            (chanVeseNext acweAllOne.data onesArr2 acweAllOne.lambda1 acweAllOne.lambda2)
            = (ph', Except.ok r) ∧
          acweAllOne.step false = ({ acweAllOne with u := some r }, ph', none)) :=
  ⟨Or.inl rfl, rfl, acwe_step_chanvese 2 (Or.inl rfl) acweAllOne false onesArr2 rfl⟩

theorem max_chain4 {a b c e : ℚ} (he : e = 0 ∨ e = 1) :
    [a, b, c, e].foldr max 0 = max (max (max a b) c) e := by
  have h0 : max e 0 = e := max_eq_left (by rcases he with h | h <;> rw [h] <;> norm_num)
  simp only [List.foldr_cons, List.foldr_nil, h0, max_assoc]

theorem min_chain4 {a b c e : ℚ} (he : e = 0 ∨ e = 1) :
    [a, b, c, e].foldr min 1 = min (min (min a b) c) e := by
  have h0 : min e 1 = e := min_eq_left (by rcases he with h | h <;> rw [h] <;> norm_num)
  simp only [List.foldr_cons, List.foldr_nil, h0, min_assoc]

theorem max_chain9 {a b c e f g h i j : ℚ} (hj : j = 0 ∨ j = 1) :
    [a, b, c, e, f, g, h, i, j].foldr max 0
      = max (max (max (max (max (max (max (max a b) c) e) f) g) h) i) j := by
  have h0 : max j 0 = j := max_eq_left (by rcases hj with hj | hj <;> rw [hj] <;> norm_num)
  simp only [List.foldr_cons, List.foldr_nil, h0, max_assoc]

theorem min_chain9 {a b c e f g h i j : ℚ} (hj : j = 0 ∨ j = 1) :
    [a, b, c, e, f, g, h, i, j].foldr min 1
      = min (min (min (min (min (min (min (min a b) c) e) f) g) h) i) j := by
  have h0 : min j 1 = j := min_eq_left (by rcases hj with hj | hj <;> rw [hj] <;> norm_num)
  simp only [List.foldr_cons, List.foldr_nil, h0, min_assoc]

/-- C5: `SI` returns, at every voxel, the maximum across the erosions of
`u` by each element of the dimension-appropriate family (the 4-element `P2`
in 2D, the 9-element `P3` in 3D), `IS` the minimum across the corresponding
dilations, and for any rank other than 2 or 3 both fail with the
dimensionality error. -/
theorem si_is_family_extremal :
    P2.length = 4 ∧ P3.length = 9 ∧
    (∀ u : Arr 2, IsBinary u →
      SI u = .ok ⟨u.shape, fun x =>
          max (max (max ((erode u P2k0).val x) ((erode u P2k1).val x))
            ((erode u P2k2).val x)) ((erode u P2k3).val x)⟩ ∧
      IS u = .ok ⟨u.shape, fun x =>
          min (min (min ((dilate u P2k0).val x) ((dilate u P2k1).val x))
            ((dilate u P2k2).val x)) ((dilate u P2k3).val x)⟩) ∧
    (∀ u : Arr 3, IsBinary u →
      SI u = .ok ⟨u.shape, fun x =>
          max (max (max (max (max (max (max (max ((erode u P3k0).val x)
            ((erode u P3k1).val x)) ((erode u P3k2).val x)) ((erode u P3k3).val x))
            ((erode u P3k4).val x)) ((erode u P3k5).val x)) ((erode u P3k6).val x))
            ((erode u P3k7).val x)) ((erode u P3k8).val x)⟩ ∧
      IS u = .ok ⟨u.shape, fun x =>
          min (min (min (min (min (min (min (min ((dilate u P3k0).val x)
            ((dilate u P3k1).val x)) ((dilate u P3k2).val x)) ((dilate u P3k3).val x))
            ((dilate u P3k4).val x)) ((dilate u P3k5).val x)) ((dilate u P3k6).val x))
            ((dilate u P3k7).val x)) ((dilate u P3k8).val x)⟩) ∧
    (∀ (e : ℕ) (u : Arr e), e ≠ 2 → e ≠ 3 →
      SI u = .error .invalidDims ∧ IS u = .error .invalidDims) := by
  refine ⟨rfl, rfl, fun u _ => ⟨?_, ?_⟩, fun u _ => ⟨?_, ?_⟩, fun e u h2 h3 => ⟨?_, ?_⟩⟩
  · show Except.ok _ = _
    congr 1
    refine Arr.ext' rfl ?_
    funext x
    show (P2.map (fun k => (erode u k).val x)).foldr max 0 = _
    simp only [P2, List.map_cons, List.map_nil]
    exact max_chain4 (erode_val_binary u P2k3 x)
  · show Except.ok _ = _
    congr 1
    refine Arr.ext' rfl ?_
    funext x
    show (P2.map (fun k => (dilate u k).val x)).foldr min 1 = _
    simp only [P2, List.map_cons, List.map_nil]
    exact min_chain4 (dilate_val_binary u P2k3 x)
  · show Except.ok _ = _
    congr 1
    refine Arr.ext' rfl ?_
    funext x
    show (P3.map (fun k => (erode u k).val x)).foldr max 0 = _
    simp only [P3, List.map_cons, List.map_nil]
    exact max_chain9 (erode_val_binary u P3k8 x)
  · show Except.ok _ = _
    congr 1
    refine Arr.ext' rfl ?_
    funext x
    show (P3.map (fun k => (dilate u k).val x)).foldr min 1 = _
    simp only [P3, List.map_cons, List.map_nil]
    exact min_chain9 (dilate_val_binary u P3k8 x)
  · unfold SI
    rw [Pfam_none h2 h3]
  · unfold IS
    rw [Pfam_none h2 h3]

theorem si_is_family_extremal_witness :
    IsBinary onesArr2 ∧ ((1:ℕ) ≠ 2) ∧ ((1:ℕ) ≠ 3) ∧
      (SI onesArr2 = .ok ⟨onesArr2.shape, fun x =>
          max (max (max ((erode onesArr2 P2k0).val x) ((erode onesArr2 P2k1).val x))
            ((erode onesArr2 P2k2).val x)) ((erode onesArr2 P2k3).val x)⟩) ∧
      SI lineArr1 = .error .invalidDims ∧ IS lineArr1 = .error .invalidDims := by
  refine ⟨fun x => Or.inr rfl, by norm_num, by norm_num, ?_, ?_, ?_⟩
  · exact (si_is_family_extremal.2.2.1 onesArr2 (fun x => Or.inr rfl)).1
  · exact (si_is_family_extremal.2.2.2.2 1 lineArr1 (by norm_num) (by norm_num)).1
  · exact (si_is_family_extremal.2.2.2.2 1 lineArr1 (by norm_num) (by norm_num)).2

/-- C2: at check index `i = 7` with stored forward differences
`5, 5, 5, 5, 5, 5, -25` (indices 0…6) and foreground count 300, the code's
statistic `sliderSum` (the slice `[1:6]`, i.e. only FIVE differences, the
newest excluded) is `25`, while the claim's six-difference window sums to
`0`; and the code's stop test — which by Python precedence is
`|s| < (20 | bool)`, i.e. a threshold of 21 or 20 — does not fire on `25`
even though `|25| < 0.1·300`, while the claim's logical-OR condition does
fire.  So the loop of `autoconvg` does not stop where the claim says it
stops exactly. -/
theorem autoconvg_window_divergence :
    sliderSum 7 (fun j => if j ≤ 5 then 5 else -25) = 25 ∧
      claimSliderSum 7 (fun j => if j ≤ 5 then 5 else -25) = 0 ∧
      convergeTest 25 300 = false ∧
      claimConvergeTest 25 300 = true := by
  have h5 : List.range 5 = [0, 1, 2, 3, 4] := rfl
  have h6 : List.range 6 = [0, 1, 2, 3, 4, 5] := rfl
  refine ⟨?_, ?_, ?_, ?_⟩
  · rw [sliderSum, h5]
    norm_num
  · rw [claimSliderSum, h6]
    norm_num
  · rw [convergeTest]
    norm_num
  · rw [claimConvergeTest]
    norm_num

/-- C3: every invocation of `soma_detect` performs a file access: the
hard-coded `writetiff3d('/home/donghao/Desktop/zebrafishlarveRGC/2_somabox.tif',
somaimg)` call runs unconditionally before the evolution, so the effect
trace of every call is exactly one file write to that path. -/
theorem soma_detect_writes_file :
    ∀ (img : Arr 3) (somapos : Fin 3 → ℤ) (sqrtRadius : ℚ) (smoothing : ℕ)
      (lambda1 lambda2 : ℚ) (soma : Bool) (iterations : ℤ) (ph : Bool),
      (soma_detect img somapos sqrtRadius smoothing lambda1 lambda2 soma iterations
            ph).1.map Effect.path
          = ["/home/donghao/Desktop/zebrafishlarveRGC/2_somabox.tif"] :=
  fun _ _ _ _ _ _ _ _ _ => rfl

/-- C10: `MorphGAC`'s derived-mask recomputation divides the threshold by
the absolute balloon value unconditionally: constructing with the balloon
strength 0 (the source's constructor default), or calling `set_balloon(0)`,
computes the second mask by comparing the data against `theta/|0|`, and
that quotient is never finite (`NaN` for `theta = 0`, `±inf` otherwise) —
no guard for `ν = 0` exists and no error is raised. -/
theorem gac_mask_divides_by_zero_balloon :
    ∀ (e : ℕ) (data : Arr e) (smoothing : ℕ) (theta : ℚ) (g : MorphGAC e),
      (mkGAC data smoothing theta 0).thresholdMaskV
          = (fun x => (Flt.div theta |(0:ℚ)|).lt (.fin (data.val x))) ∧
        (gacSetBalloon g 0).thresholdMaskV
          = (fun x => (Flt.div g.theta |(0:ℚ)|).lt (.fin (g.data.val x))) ∧
        (Flt.div theta 0).isFinite = false := by
  intro e data smoothing theta g
  refine ⟨rfl, rfl, ?_⟩
  unfold Flt.div
  rw [if_pos rfl]
  rcases lt_trichotomy 0 theta with h | h | h
  · rw [if_pos h]
    rfl
  · rw [if_neg (h ▸ lt_irrefl 0), if_neg (h ▸ lt_irrefl 0)]
    rfl
  · rw [if_neg (asymm h), if_pos h]
    rfl
